import Mathlib

/- Formal model of the volume-spike tracker and the option-chain scoring engine
of NIFTY-50-DB (src/app.py and src/main.py; app.py and main.py contain the same
core logic under slightly different names, and app.py's names are used here).
Timestamps, volumes, prices and scores are modelled as rationals; the per-token
history map is a total function that is empty by default, matching the Python
dict lookup volume_history.get(token, []). -/

namespace NiftyDB

abbrev Token := String

/-- One stored volume sample: a (timestamp, cumulative volume) pair, as appended
by update_volume_history (app.py line 75). -/
abbrev Sample := ℚ × ℚ

/-- The process-wide history map (st.session_state.volume_history in app.py,
volume_history in main.py), modelled as a total function with default empty
history per token. -/
abbrev VolumeHistory := Token → List Sample

/-- Model of update_volume_history (app.py lines 71-79, main.py lines 44-56):
append (now, volume) to the token's history, then keep exactly the samples s
with now - s.1 <= 300. -/
def update_volume_history (vh : VolumeHistory) (token : Token) (now volume : ℚ) :
    VolumeHistory :=
  fun k =>
    if k = token then
      (vh token ++ [(now, volume)]).filter (fun s => decide (now - s.1 ≤ 300))
    else vh k

/-- The list named relevant inside the window helper of calculate_spike
(app.py line 86): the stored samples whose age now - t is at most sec. -/
def relevant (history : List Sample) (now sec : ℚ) : List Sample :=
  history.filter (fun s => decide (now - s.1 ≤ sec))

/-- The window helper of calculate_spike (app.py lines 85-89): when at least two
relevant samples exist, the last relevant sample's volume minus the first
relevant sample's volume (relevant[-1][1] - relevant[0][1]), else 0. -/
def window (history : List Sample) (now sec : ℚ) : ℚ :=
  if 2 ≤ (relevant history now sec).length then
    ((relevant history now sec).getLast?.getD (0, 0)).2
      - ((relevant history now sec).head?.getD (0, 0)).2
  else 0

/-- The record returned by calculate_spike (app.py lines 91-97). -/
structure Spike where
  vol_10s : ℚ
  vol_30s : ℚ
  vol_1m : ℚ
  vol_3m : ℚ
  vol_5m : ℚ
deriving DecidableEq

/-- Model of calculate_spike (app.py lines 81-97; calculate_volume_spike in
main.py lines 59-75): read the token's history (empty for an unknown token) and
return the five fixed-window deltas.  The function only reads the history map
and returns a Spike record, mirroring that the Python function never writes to
the stored history. -/
def calculate_spike (vh : VolumeHistory) (token : Token) (now : ℚ) : Spike :=
  let history := vh token
  { vol_10s := window history now 10
    vol_30s := window history now 30
    vol_1m := window history now 60
    vol_3m := window history now 180
    vol_5m := window history now 300 }

/-! Lemmas about the tracker. -/

lemma relevant_sorted (history : List Sample) (now sec : ℚ)
    (hs : history.Pairwise (fun a b => a.1 ≤ b.1)) :
    (relevant history now sec).Pairwise (fun a b => a.1 ≤ b.1) :=
  hs.filter _

lemma relevant_vol_sorted (history : List Sample) (now sec : ℚ)
    (hv : history.Pairwise (fun a b => a.2 ≤ b.2)) :
    (relevant history now sec).Pairwise (fun a b => a.2 ≤ b.2) :=
  hv.filter _

/-- On a time-sorted history, the age filter keeps a suffix: the relevant list
is a drop of the history. -/
lemma relevant_eq_drop (history : List Sample) (now sec : ℚ)
    (hs : history.Pairwise (fun a b => a.1 ≤ b.1)) :
    ∃ k, relevant history now sec = history.drop k := by
  induction history with
  | nil => exact ⟨0, rfl⟩
  | cons x t ih =>
    rcases List.pairwise_cons.mp hs with ⟨hx, ht⟩
    by_cases hP : now - x.1 ≤ sec
    · refine ⟨0, ?_⟩
      show List.filter _ (x :: t) = x :: t
      apply List.filter_eq_self.mpr
      intro a ha
      rcases List.mem_cons.mp ha with rfl | hat
      · simpa using hP
      · have hxa := hx a hat
        simp only [decide_eq_true_eq]
        linarith
    · rcases ih ht with ⟨k, hk⟩
      refine ⟨k + 1, ?_⟩
      show List.filter _ (x :: t) = List.drop (k + 1) (x :: t)
      rw [List.filter_cons_of_neg (by simpa using hP)]
      exact hk

/-- The head of a time-sorted nonempty list of samples has minimal timestamp. -/
lemma head_min {l : List Sample} (hp : l.Pairwise (fun a b => a.1 ≤ b.1))
    (hne : l ≠ []) : ∀ s ∈ l, (l.head hne).1 ≤ s.1 := by
  intro s hs
  match l, hne with
  | a :: t, _ =>
    rcases List.mem_cons.mp hs with rfl | hst
    · simp
    · simpa using List.rel_of_pairwise_cons hp hst

/-- The last element of a time-sorted nonempty list of samples has maximal
timestamp. -/
lemma getLast_max {l : List Sample} (hp : l.Pairwise (fun a b => a.1 ≤ b.1))
    (hne : l ≠ []) : ∀ s ∈ l, s.1 ≤ (l.getLast hne).1 := by
  induction l with
  | nil => exact absurd rfl hne
  | cons a t ih =>
    intro s hs
    rcases eq_or_ne t [] with rfl | htne
    · rcases List.mem_cons.mp hs with rfl | h
      · simp
      · simp at h
    · rw [List.getLast_cons htne]
      rcases List.mem_cons.mp hs with rfl | hst
      · exact List.rel_of_pairwise_cons hp (List.getLast_mem htne)
      · exact ih (List.pairwise_cons.mp hp).2 htne s hst

/-- When at least two relevant samples exist, the window delta is the last
relevant volume minus the first relevant volume. -/
lemma window_eq_of_two_le {history : List Sample} {now sec : ℚ}
    (h2 : 2 ≤ (relevant history now sec).length) :
    ∃ hne : relevant history now sec ≠ [],
      window history now sec =
        ((relevant history now sec).getLast hne).2
          - ((relevant history now sec).head hne).2 := by
  have hne : relevant history now sec ≠ [] := by
    intro h
    rw [h] at h2
    simp at h2
  refine ⟨hne, ?_⟩
  rw [window, if_pos h2, List.getLast?_eq_getLast _ hne, List.head?_eq_head hne]
  rfl

/-- Updating with a timestamp no earlier than every stored one (the clock is
monotone and samples are appended as they arrive) preserves the time-order
invariant of the history, which the spec states for all stored histories. -/
lemma update_preserves_sorted (vh : VolumeHistory) (token : Token)
    (now volume : ℚ) (hs : (vh token).Pairwise (fun a b => a.1 ≤ b.1))
    (hnow : ∀ s ∈ vh token, s.1 ≤ now) :
    (update_volume_history vh token now volume token).Pairwise
      (fun a b => a.1 ≤ b.1) := by
  have hst : update_volume_history vh token now volume token
      = (vh token ++ [(now, volume)]).filter
          (fun s => decide (now - s.1 ≤ 300)) := by
    simp [update_volume_history]
  rw [hst]
  apply List.Pairwise.filter
  apply List.pairwise_append.mpr
  refine ⟨hs, List.pairwise_singleton _ _, ?_⟩
  intro a ha b hb
  rcases List.mem_singleton.mp hb with rfl
  exact hnow a ha

/-- The volume of the head of a volume-sorted nonempty sample list bounds every
member's volume from below. -/
lemma vol_head_min {l : List Sample} (hp : l.Pairwise (fun a b => a.2 ≤ b.2))
    (hne : l ≠ []) : ∀ s ∈ l, (l.head hne).2 ≤ s.2 := by
  intro s hs
  match l, hne with
  | a :: t, _ =>
    rcases List.mem_cons.mp hs with rfl | hst
    · simp
    · simpa using List.rel_of_pairwise_cons hp hst

/-- On a time-sorted history, narrowing the window filters the already
filtered relevant list. -/
lemma relevant_relevant (history : List Sample) (now : ℚ) {s s' : ℚ}
    (hss : s ≤ s') :
    relevant (relevant history now s') now s = relevant history now s := by
  unfold relevant
  rw [List.filter_filter]
  apply List.filter_congr
  intro a _
  by_cases h : now - a.1 ≤ s
  · simp [h, le_trans h hss]
  · simp [h]

/-- The window delta is non-negative on a time-sorted history with
non-decreasing volumes. -/
lemma window_nonneg (history : List Sample) (now sec : ℚ)
    (hv : history.Pairwise (fun a b => a.2 ≤ b.2)) :
    0 ≤ window history now sec := by
  by_cases h2 : 2 ≤ (relevant history now sec).length
  · rcases window_eq_of_two_le h2 with ⟨hne, hw⟩
    rw [hw]
    have hvr := relevant_vol_sorted history now sec hv
    have hle := vol_head_min hvr hne _ (List.getLast_mem hne)
    linarith
  · rw [window, if_neg h2]

/-- Window deltas are monotone in the window length on a time-sorted history
with non-decreasing volumes. -/
lemma window_mono (history : List Sample) (now : ℚ) {s s' : ℚ} (hss : s ≤ s')
    (ht : history.Pairwise (fun a b => a.1 ≤ b.1))
    (hv : history.Pairwise (fun a b => a.2 ≤ b.2)) :
    window history now s ≤ window history now s' := by
  by_cases h2 : 2 ≤ (relevant history now s).length
  · have htL : (relevant history now s').Pairwise (fun a b => a.1 ≤ b.1) :=
      relevant_sorted history now s' ht
    have hvL : (relevant history now s').Pairwise (fun a b => a.2 ≤ b.2) :=
      relevant_vol_sorted history now s' hv
    obtain ⟨k, hk⟩ := relevant_eq_drop (relevant history now s') now s htL
    rw [relevant_relevant history now hss] at hk
    have hlen : (relevant history now s).length
        = (relevant history now s').length - k := by
      rw [hk, List.length_drop]
    have hkl : k < (relevant history now s').length := by omega
    have h2' : 2 ≤ (relevant history now s').length := by omega
    obtain ⟨hne, hw⟩ := window_eq_of_two_le h2
    obtain ⟨hne', hw'⟩ := window_eq_of_two_le h2'
    have hlast : (relevant history now s).getLast hne
        = (relevant history now s').getLast hne' := by
      have hq : (relevant history now s).getLast?
          = (relevant history now s').getLast? := by
        rw [hk, List.getLast?_drop, if_neg (by omega)]
      rw [List.getLast?_eq_getLast _ hne, List.getLast?_eq_getLast _ hne'] at hq
      exact Option.some.inj hq
    have hhead : (relevant history now s).head hne
        = (relevant history now s').get ⟨k, hkl⟩ := by
      have hq : (relevant history now s).head?
          = some ((relevant history now s').get ⟨k, hkl⟩) := by
        rw [hk, List.head?_drop, List.getElem?_eq_getElem hkl,
          List.get_eq_getElem]
      rw [List.head?_eq_head hne] at hq
      exact Option.some.inj hq
    have hhead' : (relevant history now s').head hne'
        = (relevant history now s').get ⟨0, by omega⟩ := by
      rw [List.head_eq_getElem_zero, List.get_eq_getElem]
    have hvle : ((relevant history now s').get ⟨0, by omega⟩).2
        ≤ ((relevant history now s').get ⟨k, hkl⟩).2 := by
      rcases Nat.eq_zero_or_pos k with rfl | hkpos
      · exact le_refl _
      · exact List.pairwise_iff_get.mp hvL ⟨0, by omega⟩ ⟨k, hkl⟩ hkpos
    rw [hw, hw', hlast, hhead, hhead']
    linarith
  · rw [window, if_neg h2]
    exact window_nonneg history now s' hv

/-- C1: for every (token's) stored history satisfying the time-order invariant,
and every window length, the windowed delta equals the newest qualifying
sample's volume minus the oldest qualifying sample's volume whenever at least
two samples qualify (age relative to now at most the window length), and equals
0 when fewer than two qualify (in particular for an unknown token, whose
history is empty, and for a single qualifying sample).  The embedding of
calculate_spike is a pure reader of the history map, so the stored history is
not mutated. -/
theorem C1_windowed_delta (history : List Sample) (now sec : ℚ)
    (hs : history.Pairwise (fun a b => a.1 ≤ b.1)) :
    (2 ≤ (relevant history now sec).length →
      ∃ sOld ∈ relevant history now sec, ∃ sNew ∈ relevant history now sec,
        (∀ s ∈ relevant history now sec, sOld.1 ≤ s.1 ∧ s.1 ≤ sNew.1) ∧
        window history now sec = sNew.2 - sOld.2)
    ∧ ((relevant history now sec).length < 2 → window history now sec = 0) := by
  constructor
  · intro h2
    have hsr := relevant_sorted history now sec hs
    rcases window_eq_of_two_le h2 with ⟨hne, hw⟩
    refine ⟨(relevant history now sec).head hne, List.head_mem hne,
            (relevant history now sec).getLast hne, List.getLast_mem hne, ?_, hw⟩
    intro s hsm
    exact ⟨head_min hsr hne s hsm, getLast_max hsr hne s hsm⟩
  · intro hlt
    rw [window, if_neg (by omega)]

theorem C1_windowed_delta_witness :
    ([((0 : ℚ), (5 : ℚ)), (8, 9)].Pairwise (fun a b => a.1 ≤ b.1)) ∧
    ((2 ≤ (relevant [((0 : ℚ), (5 : ℚ)), (8, 9)] 10 30).length →
      ∃ sOld ∈ relevant [((0 : ℚ), (5 : ℚ)), (8, 9)] 10 30,
      ∃ sNew ∈ relevant [((0 : ℚ), (5 : ℚ)), (8, 9)] 10 30,
        (∀ s ∈ relevant [((0 : ℚ), (5 : ℚ)), (8, 9)] 10 30,
          sOld.1 ≤ s.1 ∧ s.1 ≤ sNew.1) ∧
        window [((0 : ℚ), (5 : ℚ)), (8, 9)] 10 30 = sNew.2 - sOld.2)
    ∧ ((relevant [((0 : ℚ), (5 : ℚ)), (8, 9)] 10 30).length < 2 →
        window [((0 : ℚ), (5 : ℚ)), (8, 9)] 10 30 = 0)) :=
  ⟨by decide, C1_windowed_delta _ 10 30 (by decide)⟩

/-- C3: immediately after update_volume_history with timestamp now, every
sample stored for that token has age at most 300 seconds relative to now. -/
theorem C3_record_prunes (vh : VolumeHistory) (token : Token) (now volume : ℚ) :
    ∀ s ∈ update_volume_history vh token now volume token, now - s.1 ≤ 300 := by
  intro s hs
  have hst : update_volume_history vh token now volume token
      = (vh token ++ [(now, volume)]).filter (fun s => decide (now - s.1 ≤ 300)) := by
    simp [update_volume_history]
  rw [hst] at hs
  rcases List.mem_filter.mp hs with ⟨-, hdec⟩
  simpa using hdec

theorem C3_record_prunes_witness :
    ((400 : ℚ), (7 : ℚ)) ∈
      update_volume_history (fun _ => [((0 : ℚ), (1 : ℚ))]) "T" 400 7 "T" ∧
    (400 : ℚ) - 400 ≤ 300 :=
  ⟨by norm_num [update_volume_history],
   C3_record_prunes (fun _ => [((0 : ℚ), (1 : ℚ))]) "T" 400 7 ((400 : ℚ), (7 : ℚ))
     (by norm_num [update_volume_history])⟩

/-- C10: on a history whose timestamps are non-decreasing in list order and
whose cumulative volumes are non-decreasing, the five spike deltas of
calculate_spike are each non-negative and monotone in the window length. -/
theorem C10_spike_monotone (vh : VolumeHistory) (token : Token) (now : ℚ)
    (ht : (vh token).Pairwise (fun a b => a.1 ≤ b.1))
    (hv : (vh token).Pairwise (fun a b => a.2 ≤ b.2)) :
    0 ≤ (calculate_spike vh token now).vol_10s ∧
    (calculate_spike vh token now).vol_10s ≤ (calculate_spike vh token now).vol_30s ∧
    (calculate_spike vh token now).vol_30s ≤ (calculate_spike vh token now).vol_1m ∧
    (calculate_spike vh token now).vol_1m ≤ (calculate_spike vh token now).vol_3m ∧
    (calculate_spike vh token now).vol_3m ≤ (calculate_spike vh token now).vol_5m := by
  refine ⟨window_nonneg _ _ _ hv, ?_, ?_, ?_, ?_⟩ <;>
    exact window_mono _ _ (by norm_num) ht hv

theorem C10_spike_monotone_witness :
    (([((0 : ℚ), (1 : ℚ)), (5, 3)] : List Sample).Pairwise (fun a b => a.1 ≤ b.1)) ∧
    (([((0 : ℚ), (1 : ℚ)), (5, 3)] : List Sample).Pairwise (fun a b => a.2 ≤ b.2)) ∧
    (0 ≤ (calculate_spike (fun _ => [((0 : ℚ), (1 : ℚ)), (5, 3)]) "T" 6).vol_10s ∧
    (calculate_spike (fun _ => [((0 : ℚ), (1 : ℚ)), (5, 3)]) "T" 6).vol_10s
      ≤ (calculate_spike (fun _ => [((0 : ℚ), (1 : ℚ)), (5, 3)]) "T" 6).vol_30s ∧
    (calculate_spike (fun _ => [((0 : ℚ), (1 : ℚ)), (5, 3)]) "T" 6).vol_30s
      ≤ (calculate_spike (fun _ => [((0 : ℚ), (1 : ℚ)), (5, 3)]) "T" 6).vol_1m ∧
    (calculate_spike (fun _ => [((0 : ℚ), (1 : ℚ)), (5, 3)]) "T" 6).vol_1m
      ≤ (calculate_spike (fun _ => [((0 : ℚ), (1 : ℚ)), (5, 3)]) "T" 6).vol_3m ∧
    (calculate_spike (fun _ => [((0 : ℚ), (1 : ℚ)), (5, 3)]) "T" 6).vol_3m
      ≤ (calculate_spike (fun _ => [((0 : ℚ), (1 : ℚ)), (5, 3)]) "T" 6).vol_5m) :=
  ⟨by decide, by decide,
   C10_spike_monotone (fun _ => [((0 : ℚ), (1 : ℚ)), (5, 3)]) "T" 6
     (by decide) (by decide)⟩

/-! Scoring engine: the scoring stage of get_chain (app.py lines 180-218) and
generate_option_dataframe (main.py lines 137-178).  The rows handed to scoring
are the per-contract snapshots assembled in the poll loop; fetching instruments
and quotes is network glue outside the scored computation, so the model takes
the assembled row batch as input. -/

/-- One pre-score contract snapshot, with the fields assembled in app.py
lines 168-178. -/
structure Row where
  symbol : String
  strike : ℚ
  type : String
  ltp : ℚ
  volume : ℚ
  oi : ℚ
  oi_change : ℚ
  iv : ℚ
  vol_10s : ℚ
  vol_30s : ℚ
  vol_1m : ℚ
  vol_3m : ℚ
  vol_5m : ℚ
deriving DecidableEq

/-- One scored output row: the input snapshot plus the columns added by the
scoring stage (app.py lines 185-216). -/
structure ScoredRow where
  row : Row
  volume_score : ℚ
  oi_score : ℚ
  oi_change_score : ℚ
  iv_score : ℚ
  vol_spike_score : ℚ
  score : ℚ
  confidence : ℚ
  volume_power : String
deriving DecidableEq

/-- The pandas Series maximum of a column, as a rational; only reached on
non-empty batches (the empty batch returns before any normalization). -/
def smax (l : List ℚ) : ℚ := l.maximum.unbot' 0

/-- The Python idiom (x or 1): 1 when x is the falsy value 0, else x itself
(app.py line 185 and the three lines after it, line 196). -/
def pyOr1 (x : ℚ) : ℚ := if x = 0 then 1 else x

/-- Column normalization df[c] / (df[c].max() or 1), applied to one value. -/
def normBy (xs : List ℚ) (x : ℚ) : ℚ := x / pyOr1 (smax xs)

/-- The pandas Series mean used for avg_spike (app.py line 208). -/
def smean (xs : List ℚ) : ℚ := xs.sum / (xs.length : ℚ)

/-- The unnormalized vol_spike_score column (app.py lines 190-194):
0.2 * vol_10s + 0.3 * vol_30s + 0.5 * vol_1m; the 3m and 5m deltas carry no
weight. -/
def spikeRaw (r : Row) : ℚ := r.vol_10s * 0.2 + r.vol_30s * 0.3 + r.vol_1m * 0.5

/-- Rounding half to even, the numpy rounding mode behind Series.round. -/
def roundHalfEven (x : ℚ) : ℤ :=
  let n := ⌊x⌋
  let frac := x - n
  if frac < 1 / 2 then n
  else if 1 / 2 < frac then n + 1
  else if n % 2 = 0 then n else n + 1

/-- Rounding to two decimal places, as in (df[score] * 100).round(2). -/
def round2 (x : ℚ) : ℚ := (roundHalfEven (x * 100) : ℚ) / 100

/-- The volume_power marker string (app.py line 214). -/
def burstFlag : String := "🚀 VOLUME BURST"

/-- Scoring of one row against its batch (app.py lines 185-216): the four
factor normalizations, the weighted spike score and its normalization by the
same rule, the composite score, the confidence and the volume-burst flag. -/
def scoreRow (rows : List Row) (r : Row) : ScoredRow :=
  let volume_score := normBy (rows.map Row.volume) r.volume
  let oi_score := normBy (rows.map Row.oi) r.oi
  let oi_change_score := normBy (rows.map Row.oi_change) r.oi_change
  let iv_score := normBy (rows.map Row.iv) r.iv
  let vol_spike_score := spikeRaw r
  let spike_norm := normBy (rows.map spikeRaw) vol_spike_score
  let score := volume_score * 0.2 + oi_score * 0.2 + oi_change_score * 0.2
    + iv_score * 0.2 + spike_norm * 0.2
  let avg_spike := smean (rows.map spikeRaw)
  { row := r, volume_score, oi_score, oi_change_score, iv_score,
    vol_spike_score, score,
    confidence := round2 (score * 100),
    volume_power :=
      if r.vol_10s > avg_spike * 1.5 ∨ r.vol_30s > avg_spike * 1.5
          ∨ r.vol_1m > avg_spike * 1.5
      then burstFlag else "" }

/-- Ascending comparison on the score column. -/
def scoreLE (a b : ScoredRow) : Prop := a.score ≤ b.score

instance : DecidableRel scoreLE := fun a b =>
  inferInstanceAs (Decidable (a.score ≤ b.score))

instance : IsTotal ScoredRow scoreLE := ⟨fun a b => le_total a.score b.score⟩

instance : IsTrans ScoredRow scoreLE := ⟨fun _ _ _ h h2 => le_trans h h2⟩

/-- Model of df_final.sort_values(score, ascending=False) (app.py line 218):
pandas produces the descending order by reversing a stable ascending argsort
(numpy quicksort coincides with stable insertion sort below its small-array
cutoff), so the model reverses a stable ascending insertion sort. -/
def sort_values (xs : List ScoredRow) : List ScoredRow :=
  (List.insertionSort scoreLE xs).reverse

/-- The scoring stage of generate_option_dataframe (main.py lines 137-178) and
get_chain (app.py lines 180-218): return the empty batch unchanged before any
normalization, otherwise score every row against the batch and sort by score
descending. -/
def generate_option_dataframe (rows : List Row) : List ScoredRow :=
  if rows.isEmpty then [] else sort_values (rows.map (scoreRow rows))

/-! Lemmas about the batch aggregates and the scoring of one row. -/

lemma smax_mem {l : List ℚ} (h : l ≠ []) : smax l ∈ l := by
  rcases hm : l.maximum with _ | m
  · exact absurd (List.maximum_eq_bot.mp hm) h
  · have hmem := List.maximum_mem hm
    simpa [smax, hm] using hmem

lemma le_smax {l : List ℚ} {x : ℚ} (hx : x ∈ l) : x ≤ smax l := by
  rcases hm : l.maximum with _ | m
  · exact absurd (List.maximum_eq_bot.mp hm) (List.ne_nil_of_mem hx)
  · have h := List.le_maximum_of_mem hx hm
    simpa [smax, hm] using h

lemma smax_perm {l l' : List ℚ} (hp : l.Perm l') : smax l = smax l' := by
  rcases hm : l.maximum with _ | m
  · have h1 : l = [] := List.maximum_eq_bot.mp hm
    subst h1
    rw [hp.symm.eq_nil]
  · have h := List.maximum_eq_coe_iff.mp hm
    have h' : l'.maximum = (m : WithBot ℚ) :=
      List.maximum_eq_coe_iff.mpr
        ⟨hp.subset h.1, fun a ha => h.2 a (hp.symm.subset ha)⟩
    rw [smax, smax, hm, h']
    rfl

lemma unbot'_max (x m : ℚ) :
    WithBot.unbot' 0 (max (x : WithBot ℚ) (m : WithBot ℚ)) = max x m := by
  rcases le_total x m with h | h
  · rw [max_eq_right h, max_eq_right (WithBot.coe_le_coe.mpr h)]
    rfl
  · rw [max_eq_left h, max_eq_left (WithBot.coe_le_coe.mpr h)]
    rfl

lemma smax_singleton (x : ℚ) : smax [x] = x := rfl

lemma smax_cons (x y : ℚ) (l : List ℚ) :
    smax (x :: y :: l) = max x (smax (y :: l)) := by
  have hne : (y :: l).maximum ≠ ⊥ :=
    List.maximum_ne_bot_of_ne_nil (by simp)
  rcases WithBot.ne_bot_iff_exists.mp hne with ⟨m, hm⟩
  unfold smax
  rw [List.maximum_cons, ← hm, unbot'_max]
  rfl

lemma smean_perm {l l' : List ℚ} (hp : l.Perm l') : smean l = smean l' := by
  unfold smean
  rw [hp.sum_eq, hp.length_eq]

lemma normBy_eq_zero {xs : List ℚ} {x : ℚ} (hx : x ∈ xs)
    (hnn : ∀ y ∈ xs, 0 ≤ y) (h0 : smax xs = 0) : normBy xs x = 0 := by
  have hx0 : x = 0 := le_antisymm (h0 ▸ le_smax hx) (hnn x hx)
  simp [normBy, pyOr1, h0, hx0]

lemma normBy_of_smax_ne {xs : List ℚ} (x : ℚ) (h : smax xs ≠ 0) :
    normBy xs x = x / smax xs := by
  simp [normBy, pyOr1, h]

lemma normBy_unit {xs : List ℚ} {x : ℚ} (hx : x ∈ xs)
    (hnn : ∀ y ∈ xs, 0 ≤ y) : 0 ≤ normBy xs x ∧ normBy xs x ≤ 1 := by
  by_cases h0 : smax xs = 0
  · rw [normBy_eq_zero hx hnn h0]
    norm_num
  · have hmem := smax_mem (List.ne_nil_of_mem hx)
    have hpos : 0 < smax xs := lt_of_le_of_ne (hnn _ hmem) (Ne.symm h0)
    rw [normBy_of_smax_ne _ h0]
    exact ⟨div_nonneg (hnn x hx) hpos.le, (div_le_one hpos).mpr (le_smax hx)⟩

lemma normBy_congr {xs ys : List ℚ} (h : smax xs = smax ys) (x : ℚ) :
    normBy xs x = normBy ys x := by
  unfold normBy
  rw [h]

lemma scoreRow_row (rows : List Row) (r : Row) : (scoreRow rows r).row = r := rfl

lemma scoreRow_volume_score (rows : List Row) (r : Row) :
    (scoreRow rows r).volume_score = normBy (rows.map Row.volume) r.volume := rfl

lemma scoreRow_oi_score (rows : List Row) (r : Row) :
    (scoreRow rows r).oi_score = normBy (rows.map Row.oi) r.oi := rfl

lemma scoreRow_oi_change_score (rows : List Row) (r : Row) :
    (scoreRow rows r).oi_change_score
      = normBy (rows.map Row.oi_change) r.oi_change := rfl

lemma scoreRow_iv_score (rows : List Row) (r : Row) :
    (scoreRow rows r).iv_score = normBy (rows.map Row.iv) r.iv := rfl

lemma scoreRow_vol_spike_score (rows : List Row) (r : Row) :
    (scoreRow rows r).vol_spike_score = spikeRaw r := rfl

lemma scoreRow_score (rows : List Row) (r : Row) :
    (scoreRow rows r).score
      = normBy (rows.map Row.volume) r.volume * 0.2
        + normBy (rows.map Row.oi) r.oi * 0.2
        + normBy (rows.map Row.oi_change) r.oi_change * 0.2
        + normBy (rows.map Row.iv) r.iv * 0.2
        + normBy (rows.map spikeRaw) (spikeRaw r) * 0.2 := rfl

lemma scoreRow_volume_power (rows : List Row) (r : Row) :
    (scoreRow rows r).volume_power
      = if r.vol_10s > smean (rows.map spikeRaw) * 1.5
          ∨ r.vol_30s > smean (rows.map spikeRaw) * 1.5
          ∨ r.vol_1m > smean (rows.map spikeRaw) * 1.5
        then burstFlag else "" := rfl

/-- Every output row of the scoring stage is the scoring of some input row of
the batch. -/
lemma mem_generate {rows : List Row} {sr : ScoredRow}
    (hm : sr ∈ generate_option_dataframe rows) :
    ∃ r ∈ rows, sr = scoreRow rows r := by
  unfold generate_option_dataframe at hm
  by_cases he : rows.isEmpty
  · rw [if_pos he] at hm
    simp at hm
  · rw [if_neg he] at hm
    unfold sort_values at hm
    rw [List.mem_reverse] at hm
    have hm2 := (List.perm_insertionSort scoreLE _).subset hm
    rcases List.mem_map.mp hm2 with ⟨r, hr, heq⟩
    exact ⟨r, hr, heq.symm⟩

/-- Membership of a scored input row in the scoring output, independent of the
sort order. -/
lemma mem_generate_of_mem {rows : List Row} {r : Row} (hne : rows ≠ [])
    (hr : r ∈ rows) : scoreRow rows r ∈ generate_option_dataframe rows := by
  unfold generate_option_dataframe sort_values
  rw [if_neg (by simpa [List.isEmpty_iff] using hne)]
  rw [List.mem_reverse]
  exact (List.perm_insertionSort scoreLE _).mem_iff.mpr
    (List.mem_map_of_mem _ hr)

/-- Scoring one row depends on the batch only through permutation-invariant
aggregates, hence is itself invariant under permutations of the batch. -/
lemma scoreRow_congr {rows rows' : List Row} (hp : rows.Perm rows') (r : Row) :
    scoreRow rows r = scoreRow rows' r := by
  have hv := smax_perm (hp.map Row.volume)
  have hoi := smax_perm (hp.map Row.oi)
  have hoc := smax_perm (hp.map Row.oi_change)
  have hiv := smax_perm (hp.map Row.iv)
  have hsp := smax_perm (hp.map spikeRaw)
  have hme := smean_perm (hp.map spikeRaw)
  unfold scoreRow
  simp only [normBy_congr hv, normBy_congr hoi, normBy_congr hoc,
    normBy_congr hiv, normBy_congr hsp, hme]

/-- Convenience constructor for concrete snapshot rows: symbol, volume, oi,
oi_change, iv and the 10s/30s/1m deltas; the remaining fields are fixed. -/
def mkRow (sym : String) (volume oi oic iv d10 d30 d1m : ℚ) : Row :=
  { symbol := sym, strike := 0, type := "CE", ltp := 0, volume, oi,
    oi_change := oic, iv, vol_10s := d10, vol_30s := d30, vol_1m := d1m,
    vol_3m := 0, vol_5m := 0 }

/-- Example row with a large 10-second delta. -/
def exA : Row := mkRow "A" 0 0 0 0 1000 0 0

/-- Example row with all factors zero. -/
def exB : Row := mkRow "B" 0 0 0 0 0 0 0

/-- Example row with a negative volume. -/
def exN : Row := mkRow "N" (-1) 0 0 0 0 0 0

/-- The two branches of the normalization of one factor column f:
when all values are non-negative and the batch maximum is 0 the normalized
value is 0, and when the maximum is nonzero the normalized value is the raw
value divided by the maximum. -/
lemma factor_norm_cases (rows : List Row) (r : Row) (h : r ∈ rows)
    (f : Row → ℚ) :
    ((∀ x ∈ rows, 0 ≤ f x) → smax (rows.map f) = 0 →
      normBy (rows.map f) (f r) = 0)
    ∧ (smax (rows.map f) ≠ 0 →
      normBy (rows.map f) (f r) = f r / smax (rows.map f)) := by
  constructor
  · intro hnn h0
    refine normBy_eq_zero (List.mem_map_of_mem f h) ?_ h0
    intro y hy
    rcases List.mem_map.mp hy with ⟨x, hx, rfl⟩
    exact hnn x hx
  · exact fun hne => normBy_of_smax_ne _ hne

/-- C2, counterexample to the claim as stated: with volumes -1 and 0 the batch
maximum volume is 0, yet not every output row has volume_score 0 (the code
divides by 1 in this case, so the score equals the raw value -1). -/
theorem C2_normalization_counterexample :
    smax ([exN, exB].map Row.volume) = 0 ∧
    scoreRow [exN, exB] exN ∈ generate_option_dataframe [exN, exB] ∧
    (scoreRow [exN, exB] exN).volume_score = -1 ∧
    (scoreRow [exN, exB] exN).volume_score ≠ 0 := by
  have hmax : smax ([exN, exB].map Row.volume) = 0 := by
    norm_num [exN, exB, mkRow, smax_cons, smax_singleton, max_def]
  have hsc : (scoreRow [exN, exB] exN).volume_score = -1 := by
    rw [scoreRow_volume_score, normBy, pyOr1, hmax]
    norm_num [exN, mkRow]
  refine ⟨hmax, mem_generate_of_mem (by decide) (by decide), hsc, ?_⟩
  rw [hsc]
  norm_num

/-- C2 as amended: when a factor's batch maximum is 0, each row's normalized
score for that factor equals its raw value (divided by 1), which is 0 for
every row as soon as all the raw values of that factor are non-negative;
when the maximum is nonzero, each row's normalized score equals its raw value
divided by the batch maximum.  Stated for each of the four factors. -/
theorem C2_normalization_amended (rows : List Row) (r : Row) (h : r ∈ rows) :
    ((∀ x ∈ rows, 0 ≤ x.volume) → smax (rows.map Row.volume) = 0 →
      (scoreRow rows r).volume_score = 0)
    ∧ (smax (rows.map Row.volume) ≠ 0 →
      (scoreRow rows r).volume_score = r.volume / smax (rows.map Row.volume))
    ∧ ((∀ x ∈ rows, 0 ≤ x.oi) → smax (rows.map Row.oi) = 0 →
      (scoreRow rows r).oi_score = 0)
    ∧ (smax (rows.map Row.oi) ≠ 0 →
      (scoreRow rows r).oi_score = r.oi / smax (rows.map Row.oi))
    ∧ ((∀ x ∈ rows, 0 ≤ x.oi_change) → smax (rows.map Row.oi_change) = 0 →
      (scoreRow rows r).oi_change_score = 0)
    ∧ (smax (rows.map Row.oi_change) ≠ 0 →
      (scoreRow rows r).oi_change_score
        = r.oi_change / smax (rows.map Row.oi_change))
    ∧ ((∀ x ∈ rows, 0 ≤ x.iv) → smax (rows.map Row.iv) = 0 →
      (scoreRow rows r).iv_score = 0)
    ∧ (smax (rows.map Row.iv) ≠ 0 →
      (scoreRow rows r).iv_score = r.iv / smax (rows.map Row.iv)) :=
  ⟨(factor_norm_cases rows r h Row.volume).1,
   (factor_norm_cases rows r h Row.volume).2,
   (factor_norm_cases rows r h Row.oi).1,
   (factor_norm_cases rows r h Row.oi).2,
   (factor_norm_cases rows r h Row.oi_change).1,
   (factor_norm_cases rows r h Row.oi_change).2,
   (factor_norm_cases rows r h Row.iv).1,
   (factor_norm_cases rows r h Row.iv).2⟩

theorem C2_normalization_amended_witness :
    mkRow "A" 2 3 4 5 0 0 0 ∈ [mkRow "A" 2 3 4 5 0 0 0] ∧
    smax ([mkRow "A" 2 3 4 5 0 0 0].map Row.volume) ≠ 0 ∧
    (scoreRow [mkRow "A" 2 3 4 5 0 0 0] (mkRow "A" 2 3 4 5 0 0 0)).volume_score
      = (mkRow "A" 2 3 4 5 0 0 0).volume
        / smax ([mkRow "A" 2 3 4 5 0 0 0].map Row.volume) :=
  ⟨by decide, by decide,
   (C2_normalization_amended [mkRow "A" 2 3 4 5 0 0 0] (mkRow "A" 2 3 4 5 0 0 0)
      (by decide)).2.1 (by decide)⟩

/-- C4: each output row's unnormalized spike score weights only the 10s, 30s
and 1m deltas (0.2, 0.3, 0.5), and its composite score is the 0.2-weighted sum
of the four normalized factor scores and the spike score normalized over the
batch by the same zero-guarded rule as the factors. -/
theorem C4_composite_formula (rows : List Row) (h : rows ≠ []) (sr : ScoredRow)
    (hm : sr ∈ generate_option_dataframe rows) :
    sr.vol_spike_score
      = sr.row.vol_10s * 0.2 + sr.row.vol_30s * 0.3 + sr.row.vol_1m * 0.5
    ∧ sr.score
      = sr.volume_score * 0.2 + sr.oi_score * 0.2 + sr.oi_change_score * 0.2
        + sr.iv_score * 0.2
        + normBy (rows.map spikeRaw) sr.vol_spike_score * 0.2 := by
  rcases mem_generate hm with ⟨r, _hr, rfl⟩
  exact ⟨rfl, rfl⟩

theorem C4_composite_formula_witness :
    ([exB] ≠ ([] : List Row)) ∧
    scoreRow [exB] exB ∈ generate_option_dataframe [exB] ∧
    ((scoreRow [exB] exB).vol_spike_score
      = (scoreRow [exB] exB).row.vol_10s * 0.2
        + (scoreRow [exB] exB).row.vol_30s * 0.3
        + (scoreRow [exB] exB).row.vol_1m * 0.5
    ∧ (scoreRow [exB] exB).score
      = (scoreRow [exB] exB).volume_score * 0.2
        + (scoreRow [exB] exB).oi_score * 0.2
        + (scoreRow [exB] exB).oi_change_score * 0.2
        + (scoreRow [exB] exB).iv_score * 0.2
        + normBy ([exB].map spikeRaw) (scoreRow [exB] exB).vol_spike_score * 0.2) :=
  ⟨by decide, mem_generate_of_mem (by decide) (by decide),
   C4_composite_formula [exB] (by decide) (scoreRow [exB] exB)
     (mem_generate_of_mem (by decide) (by decide))⟩

/-- C5, counterexample to the claim as stated: two rows with identical factor
values get equal composite scores, but the output lists them in reversed input
order, because the descending order is produced by reversing a stable
ascending sort. -/
theorem C5_stable_sort_counterexample :
    (scoreRow [mkRow "A" 1 1 1 1 1 1 1, mkRow "B" 1 1 1 1 1 1 1]
        (mkRow "A" 1 1 1 1 1 1 1)).score
      = (scoreRow [mkRow "A" 1 1 1 1 1 1 1, mkRow "B" 1 1 1 1 1 1 1]
        (mkRow "B" 1 1 1 1 1 1 1)).score ∧
    (generate_option_dataframe
        [mkRow "A" 1 1 1 1 1 1 1, mkRow "B" 1 1 1 1 1 1 1]).map
      (fun sr => sr.row.symbol) = ["B", "A"] := by
  constructor
  · rfl
  · have hle : scoreLE
        (scoreRow [mkRow "A" 1 1 1 1 1 1 1, mkRow "B" 1 1 1 1 1 1 1]
          (mkRow "A" 1 1 1 1 1 1 1))
        (scoreRow [mkRow "A" 1 1 1 1 1 1 1, mkRow "B" 1 1 1 1 1 1 1]
          (mkRow "B" 1 1 1 1 1 1 1)) := le_of_eq rfl
    have hsort : List.insertionSort scoreLE
        (List.map (scoreRow [mkRow "A" 1 1 1 1 1 1 1, mkRow "B" 1 1 1 1 1 1 1])
          [mkRow "A" 1 1 1 1 1 1 1, mkRow "B" 1 1 1 1 1 1 1])
        = List.map (scoreRow [mkRow "A" 1 1 1 1 1 1 1, mkRow "B" 1 1 1 1 1 1 1])
          [mkRow "A" 1 1 1 1 1 1 1, mkRow "B" 1 1 1 1 1 1 1] := by
      simp only [List.map_cons, List.map_nil, List.insertionSort,
        List.orderedInsert]
      rw [if_pos hle]
    unfold generate_option_dataframe sort_values
    rw [if_neg (by decide), hsort]
    simp [scoreRow_row, mkRow]

/-- C5 as amended: the output of the scoring stage is a permutation of the
scored input rows sorted by composite score in descending order; the relative
order of equal-score rows is not guaranteed to be the input order. -/
theorem C5_sort_descending_amended (rows : List Row) (h : rows ≠ []) :
    (generate_option_dataframe rows).Pairwise (fun a b => b.score ≤ a.score)
    ∧ (generate_option_dataframe rows).Perm (rows.map (scoreRow rows)) := by
  have hni : ¬ rows.isEmpty = true := by simpa [List.isEmpty_iff] using h
  unfold generate_option_dataframe sort_values
  rw [if_neg hni]
  constructor
  · rw [List.pairwise_reverse]
    exact List.sorted_insertionSort scoreLE (rows.map (scoreRow rows))
  · exact (List.reverse_perm _).trans (List.perm_insertionSort _ _)

theorem C5_sort_descending_amended_witness :
    ([exA, exB] ≠ ([] : List Row)) ∧
    ((generate_option_dataframe [exA, exB]).Pairwise
        (fun a b => b.score ≤ a.score)
    ∧ (generate_option_dataframe [exA, exB]).Perm
        ([exA, exB].map (scoreRow [exA, exB]))) :=
  ⟨by decide, C5_sort_descending_amended [exA, exB] (by decide)⟩

/-- C6: an output row carries the volume-burst marker exactly when one of its
10s, 30s or 1m deltas strictly exceeds 1.5 times the batch mean of the
unnormalized spike scores, and carries the empty marker otherwise. -/
theorem C6_burst_flag (rows : List Row) (h : rows ≠ []) (sr : ScoredRow)
    (hm : sr ∈ generate_option_dataframe rows) :
    (sr.volume_power = burstFlag ↔
      (sr.row.vol_10s > smean (rows.map spikeRaw) * 1.5
        ∨ sr.row.vol_30s > smean (rows.map spikeRaw) * 1.5
        ∨ sr.row.vol_1m > smean (rows.map spikeRaw) * 1.5))
    ∧ (sr.volume_power = "" ↔
      ¬ (sr.row.vol_10s > smean (rows.map spikeRaw) * 1.5
        ∨ sr.row.vol_30s > smean (rows.map spikeRaw) * 1.5
        ∨ sr.row.vol_1m > smean (rows.map spikeRaw) * 1.5)) := by
  rcases mem_generate hm with ⟨r, _hr, rfl⟩
  rw [scoreRow_volume_power, scoreRow_row]
  by_cases hc : r.vol_10s > smean (rows.map spikeRaw) * 1.5
      ∨ r.vol_30s > smean (rows.map spikeRaw) * 1.5
      ∨ r.vol_1m > smean (rows.map spikeRaw) * 1.5
  · rw [if_pos hc]
    exact ⟨iff_of_true rfl hc,
      iff_of_false (by decide) (not_not_intro hc)⟩
  · rw [if_neg hc]
    exact ⟨iff_of_false (by decide) hc, iff_of_true rfl hc⟩

theorem C6_burst_flag_witness :
    ([exA, exB] ≠ ([] : List Row)) ∧
    scoreRow [exA, exB] exA ∈ generate_option_dataframe [exA, exB] ∧
    (((scoreRow [exA, exB] exA).volume_power = burstFlag ↔
      ((scoreRow [exA, exB] exA).row.vol_10s
          > smean ([exA, exB].map spikeRaw) * 1.5
        ∨ (scoreRow [exA, exB] exA).row.vol_30s
          > smean ([exA, exB].map spikeRaw) * 1.5
        ∨ (scoreRow [exA, exB] exA).row.vol_1m
          > smean ([exA, exB].map spikeRaw) * 1.5))
    ∧ ((scoreRow [exA, exB] exA).volume_power = "" ↔
      ¬ ((scoreRow [exA, exB] exA).row.vol_10s
          > smean ([exA, exB].map spikeRaw) * 1.5
        ∨ (scoreRow [exA, exB] exA).row.vol_30s
          > smean ([exA, exB].map spikeRaw) * 1.5
        ∨ (scoreRow [exA, exB] exA).row.vol_1m
          > smean ([exA, exB].map spikeRaw) * 1.5))) :=
  ⟨by decide, mem_generate_of_mem (by decide) (by decide),
   C6_burst_flag [exA, exB] (by decide) (scoreRow [exA, exB] exA)
     (mem_generate_of_mem (by decide) (by decide))⟩

/-- C7: the empty snapshot batch is returned as the empty result by the early
return of the scoring stage, before any normalization or aggregate is formed
(the definition returns in its isEmpty branch without touching smax, smean or
any division). -/
theorem C7_empty_batch : generate_option_dataframe [] = [] := rfl

/-- C8: on a non-empty batch whose raw inputs (the four factors and the three
weighted spike deltas) are all non-negative, every output row's composite
score lies in the closed interval from 0 to 1; contrapositively, a composite
score can exceed 1 only if some raw input is negative. -/
theorem C8_score_in_unit_interval (rows : List Row) (h : rows ≠ [])
    (hnn : ∀ r ∈ rows, 0 ≤ r.volume ∧ 0 ≤ r.oi ∧ 0 ≤ r.oi_change ∧ 0 ≤ r.iv
      ∧ 0 ≤ r.vol_10s ∧ 0 ≤ r.vol_30s ∧ 0 ≤ r.vol_1m)
    (sr : ScoredRow) (hm : sr ∈ generate_option_dataframe rows) :
    0 ≤ sr.score ∧ sr.score ≤ 1 := by
  rcases mem_generate hm with ⟨r, hr, rfl⟩
  have hmap : ∀ (f : Row → ℚ), (∀ x ∈ rows, 0 ≤ f x) →
      ∀ y ∈ rows.map f, 0 ≤ y := by
    intro f hf y hy
    rcases List.mem_map.mp hy with ⟨x, hx, rfl⟩
    exact hf x hx
  have h1 := normBy_unit (List.mem_map_of_mem Row.volume hr)
    (hmap Row.volume fun x hx => (hnn x hx).1)
  have h2 := normBy_unit (List.mem_map_of_mem Row.oi hr)
    (hmap Row.oi fun x hx => (hnn x hx).2.1)
  have h3 := normBy_unit (List.mem_map_of_mem Row.oi_change hr)
    (hmap Row.oi_change fun x hx => (hnn x hx).2.2.1)
  have h4 := normBy_unit (List.mem_map_of_mem Row.iv hr)
    (hmap Row.iv fun x hx => (hnn x hx).2.2.2.1)
  have hspike : ∀ x ∈ rows, 0 ≤ spikeRaw x := by
    intro x hx
    rcases hnn x hx with ⟨-, -, -, -, h10, h30, h1m⟩
    unfold spikeRaw
    have e10 : (0 : ℚ) ≤ x.vol_10s * 0.2 := by positivity
    have e30 : (0 : ℚ) ≤ x.vol_30s * 0.3 := by positivity
    have e1m : (0 : ℚ) ≤ x.vol_1m * 0.5 := by positivity
    linarith
  have h5 := normBy_unit (List.mem_map_of_mem spikeRaw hr) (hmap spikeRaw hspike)
  rw [scoreRow_score]
  constructor <;> linarith [h1.1, h1.2, h2.1, h2.2, h3.1, h3.2, h4.1, h4.2,
    h5.1, h5.2]

theorem C8_score_in_unit_interval_witness :
    ([exA, exB] ≠ ([] : List Row)) ∧
    (∀ r ∈ [exA, exB], 0 ≤ r.volume ∧ 0 ≤ r.oi ∧ 0 ≤ r.oi_change ∧ 0 ≤ r.iv
      ∧ 0 ≤ r.vol_10s ∧ 0 ≤ r.vol_30s ∧ 0 ≤ r.vol_1m) ∧
    scoreRow [exA, exB] exA ∈ generate_option_dataframe [exA, exB] ∧
    (0 ≤ (scoreRow [exA, exB] exA).score ∧ (scoreRow [exA, exB] exA).score ≤ 1) :=
  ⟨by decide, by decide, mem_generate_of_mem (by decide) (by decide),
   C8_score_in_unit_interval [exA, exB] (by decide) (by decide)
     (scoreRow [exA, exB] exA) (mem_generate_of_mem (by decide) (by decide))⟩

/-- C9: permuting the input batch changes no individual row's scored output
(all component scores, spike score, composite score, confidence and burst
flag are fields of the scored row, which is unchanged), and the full outputs
of the scoring stage are permutations of each other, so only the final sorted
order can depend on the input order. -/
theorem C9_order_invariance (rows rows' : List Row) (hp : rows.Perm rows')
    (r : Row) :
    scoreRow rows r = scoreRow rows' r
    ∧ (generate_option_dataframe rows).Perm (generate_option_dataframe rows') := by
  refine ⟨scoreRow_congr hp r, ?_⟩
  rcases eq_or_ne rows [] with rfl | hne
  · rw [hp.symm.eq_nil]
  · have hne' : rows' ≠ [] := fun hq => hne (hq ▸ hp).eq_nil
    have hni : ¬ rows.isEmpty = true := by simpa [List.isEmpty_iff] using hne
    have hni' : ¬ rows'.isEmpty = true := by simpa [List.isEmpty_iff] using hne'
    unfold generate_option_dataframe sort_values
    rw [if_neg hni, if_neg hni']
    have hmapeq : rows'.map (scoreRow rows) = rows'.map (scoreRow rows') :=
      List.map_congr_left fun a _ => scoreRow_congr hp a
    have hmid : (rows.map (scoreRow rows)).Perm (rows'.map (scoreRow rows')) := by
      have hpm := hp.map (scoreRow rows)
      rwa [hmapeq] at hpm
    exact ((List.reverse_perm _).trans (List.perm_insertionSort _ _)).trans
      (hmid.trans
        (((List.reverse_perm _).trans (List.perm_insertionSort _ _)).symm))

theorem C9_order_invariance_witness :
    ([exA, exB].Perm [exB, exA]) ∧
    (scoreRow [exA, exB] exA = scoreRow [exB, exA] exA
    ∧ (generate_option_dataframe [exA, exB]).Perm
        (generate_option_dataframe [exB, exA])) :=
  ⟨by decide, C9_order_invariance [exA, exB] [exB, exA] (by decide) exA⟩

end NiftyDB
